import Mathlib

/-!
Verification of the EN→PL lookup core (`app/wiki_diki.py`).

The Python module is shallowly embedded: every remote collaborator (HTTP
transport, HTML parser, JSON APIs) is a function parameter, wall-clock time is
an explicit `Nat` parameter, and the process-wide TTL cache is threaded as an
explicit association list.  Each modelled operation returns its Python return
value together with the updated cache and the list of side effects (remote
requests, sleeps) it performed, in order.

String processing mirrors the Python source at the level of `List Char`;
percent-decoding is modelled byte-per-char (an ASCII-range model of the
`urllib` behaviour, which decodes to UTF-8 bytes).
-/

namespace WikiDiki

/-! ### Character-level string helpers (Python `str.strip`, `re.sub(r"\s+"...)`) -/

/-- ASCII model of the Python `\s` class / `str.strip()` whitespace set. -/
def pyIsSpace (c : Char) : Bool :=
  c == ' ' || c == '\t' || c == '\n' || c == '\r' || c == '\x0b' || c == '\x0c'

/-- Drop matching characters from the end of a list (via the reversal). -/
def dropTrail (p : Char → Bool) (l : List Char) : List Char :=
  (l.reverse.dropWhile p).reverse

/-- Drop matching characters from both ends: Python `str.strip(chars)`. -/
def stripBoth (p : Char → Bool) (l : List Char) : List Char :=
  dropTrail p (l.dropWhile p)

/-- Python `s.strip()` (no argument: strip whitespace). -/
def pyStrip (s : String) : String := ⟨stripBoth pyIsSpace s.data⟩

/-- Python `s.lower()` (ASCII model). -/
def pyLower (s : String) : String := ⟨s.data.map Char.toLower⟩

/-- Model of `re.sub(r"\s+", " ", s)`: every maximal whitespace run becomes one
space.  The flag records whether the previous character was whitespace. -/
def collapseAux : Bool → List Char → List Char
  | _, [] => []
  | prevWS, c :: rest =>
    if pyIsSpace c then
      if prevWS then collapseAux true rest else ' ' :: collapseAux true rest
    else c :: collapseAux false rest

/-- The punctuation set stripped by `_clean_text`: `" ,;:–—-"`. -/
def punctChars : List Char := [' ', ',', ';', ':', '–', '—', '-']

/-- Membership in the `_clean_text` strip set. -/
def isPunct (c : Char) : Bool := decide (c ∈ punctChars)

/-- `_clean_text` on the character list: strip whitespace, collapse interior
whitespace runs to single spaces, then strip the punctuation set. -/
def cleanChars (l : List Char) : List Char :=
  stripBoth isPunct (collapseAux false (stripBoth pyIsSpace l))

/-- `_clean_text(s)` from `app/wiki_diki.py`. -/
def clean_text (s : String) : String := ⟨cleanChars s.data⟩

/-! ### `_strip_parentheticals`: `re.sub(r"\([^)]*\)", "", s).strip()` -/

/-- Remove every `(...)` span that has a closing `)` (the regex matches from a
`(` to the first following `)`); a `(` without any later `)` is kept.  The
fuel argument bounds the recursion; `l.length` fuel always suffices since each
step consumes at least one character. -/
def stripParenF : Nat → List Char → List Char
  | _, [] => []
  | 0, l => l
  | fuel + 1, c :: rest =>
    if c = '(' then
      let found := rest.dropWhile (fun d => !(d == ')'))
      if found = [] then c :: stripParenF fuel rest
      else stripParenF fuel found.tail
    else c :: stripParenF fuel rest

/-- `_strip_parentheticals(s)` from `app/wiki_diki.py`. -/
def strip_parentheticals (s : String) : String :=
  ⟨stripBoth pyIsSpace (stripParenF s.data.length s.data)⟩

/-! ### Literal replacement (Python `str.replace` / literal `re.sub`) -/

/-- Non-overlapping left-to-right replacement of `pat` by `repl`.  Fuel-bounded
structural recursion; fuel `l.length` always suffices for a non-empty `pat`. -/
def replaceAllF (pat repl : List Char) : Nat → List Char → List Char
  | _, [] => []
  | 0, l => l
  | fuel + 1, c :: rest =>
    if pat ≠ [] ∧ pat.isPrefixOf (c :: rest) then
      repl ++ replaceAllF pat repl fuel ((c :: rest).drop pat.length)
    else c :: replaceAllF pat repl fuel rest

/-- Python `s.replace(pat, repl)` for a non-empty literal pattern. -/
def pyReplace (s pat repl : String) : String :=
  ⟨replaceAllF pat.data repl.data s.data.length s.data⟩

/-! ### `_uniq`: order-preserving dedup that also drops falsy (empty) strings -/

/-- Accumulator form of `_uniq`; `out` plays the role of both `out` and `seen`
in the Python source (they always hold the same members). -/
def uniqAux (out : List String) : List String → List String
  | [] => out
  | s :: rest =>
    if s ≠ "" ∧ s ∉ out then uniqAux (out ++ [s]) rest else uniqAux out rest

/-- `_uniq(seq)` from `app/wiki_diki.py`. -/
def uniq (seq : List String) : List String := uniqAux [] seq

/-! ### The TTL cache (`_cache`, `_cache_get_key`, `_cache_set_key`) -/

/-- `CACHE_TTL = 60 * 60 * 6`. -/
def CACHE_TTL : Nat := 60 * 60 * 6

/-- One component of a cache-key argument tuple (Python str / int / None). -/
inductive Arg
  | str (s : String)
  | int (n : Int)
  | none
deriving DecidableEq

/-- A cache key: operation name plus its argument tuple. -/
abbrev CKey := String × List Arg

/-- A Python value storable in the cache.  `PyVal.none` is Python's `None`. -/
inductive PyVal
  | none
  | str (s : String)
  | strList (l : List String)
  | pairList (l : List (String × String))
  | xref (enTitle plTitle plUrl : String)
deriving DecidableEq

/-- The cache dictionary: key ↦ (insertion time, stored value), modelled as an
association list with at most one live entry per key. -/
abbrev CacheMap := List (CKey × Nat × PyVal)

/-- First entry for a key (Python `dict.get`). -/
def cacheFind : CacheMap → CKey → Option (Nat × PyVal)
  | [], _ => Option.none
  | e :: rest, k => if e.1 = k then some e.2 else cacheFind rest k

/-- Remove a key (Python `dict.pop(key, None)` / reassignment). -/
def cacheErase : CacheMap → CKey → CacheMap
  | [], _ => []
  | e :: rest, k => if e.1 = k then cacheErase rest k else e :: cacheErase rest k

/-- `_cache_get_key`: a missing entry and a stored `None` both read back as
`None`; a stale entry (strictly older than the TTL) is evicted and reads as
`None`. -/
def cache_get_key (c : CacheMap) (now : Nat) (k : CKey) : PyVal × CacheMap :=
  match cacheFind c k with
  | Option.none => (PyVal.none, c)
  | some (ts, data) =>
    if now - ts > CACHE_TTL then (PyVal.none, cacheErase c k) else (data, c)

/-- `_cache_set_key`: store `(now, value)` under the key, replacing any
previous entry. -/
def cache_set_key (c : CacheMap) (now : Nat) (k : CKey) (v : PyVal) : CacheMap :=
  (k, now, v) :: cacheErase c k

/-! ### Side effects -/

/-- An observable side effect of one modelled operation. -/
inductive Ev
  | remote (tag : String)
  | sleep
deriving DecidableEq

/-- Whether an event is a remote request. -/
def isRemote : Ev → Bool
  | Ev.remote _ => true
  | Ev.sleep => false

/-- Number of remote requests in an event trace. -/
def remoteCount (evs : List Ev) : Nat := (evs.filter isRemote).length

/-! ### `resolve_en_title` -/

/-- Strip a literal leading pattern from a character list, or fail. -/
def dropPfx (p l : List Char) : Option (List Char) :=
  if p.isPrefixOf l then some (l.drop p.length) else Option.none

/-- Model of `re.match(r"^https?://(en\.)?wikipedia\.org/wiki/([^#\?]+)", s)`,
returning group 2 (the raw title path segment).  The alternation is
deterministic because no input can match both branches of `https?` or of
`(en\.)?`. -/
def wikiUrlMatch (s : String) : Option String :=
  match (dropPfx "https://".data s.data).orElse
      (fun _ => dropPfx "http://".data s.data) with
  | Option.none => Option.none
  | some r1 =>
    let r2 := match dropPfx "en.".data r1 with
      | some r => r
      | Option.none => r1
    match dropPfx "wikipedia.org/wiki/".data r2 with
    | Option.none => Option.none
    | some rest =>
      let raw := rest.takeWhile (fun c => !(c == '#' || c == '?'))
      if raw = [] then Option.none else some ⟨raw⟩

/-- The decode applied to a matched URL title: `_` → space, then unescape
`%28` and `%29`. -/
def decodeWikiTitle (raw : String) : String :=
  pyReplace (pyReplace (pyReplace raw "_" " ") "%28" "(") "%29" ")"

/-- Cache key of `resolve_en_title` (keyed by the raw query). -/
def resolveKey (q : String) : CKey := ("resolve_en_title", [Arg.str q])

/-- Read a cached resolver outcome (a `str` when present). -/
def pyvalToStr : PyVal → Option String
  | PyVal.str s => some s
  | _ => Option.none

/-- `resolve_en_title(term_or_url)`.  `search` models the enwiki full-text
search collaborator: its result is the title of the single hit, or `none` when
the call fails or yields no hits (the source collapses all failures). -/
def resolve_en_title (search : String → Option String) (now : Nat)
    (cache0 : CacheMap) (q : String) : Option String × CacheMap × List Ev :=
  let key := resolveKey q
  let gc := cache_get_key cache0 now key
  if gc.1 ≠ PyVal.none then (pyvalToStr gc.1, gc.2, [])
  else
    let s := pyStrip q
    match wikiUrlMatch s with
    | some raw =>
      let title := decodeWikiTitle raw
      (some title, cache_set_key gc.2 now key (PyVal.str title), [])
    | Option.none =>
      if s = "" then
        (Option.none, cache_set_key gc.2 now key PyVal.none, [])
      else
        match search s with
        | some title =>
          (some title, cache_set_key gc.2 now key (PyVal.str title),
            [Ev.remote "enwiki-search"])
        | Option.none =>
          (Option.none, cache_set_key gc.2 now key PyVal.none,
            [Ev.remote "enwiki-search"])

/-! ### `english_to_polish_wikipedia` -/

/-- Outcome of one remote step: an exception anywhere in the step (network,
non-2xx status, malformed JSON, missing key), or the parsed payload. -/
inductive Res (α : Type)
  | exc
  | ok (val : α)
deriving DecidableEq

/-- The cross-reference record `{"en_title", "pl_title", "pl_url"}`. -/
structure Xref where
  enTitle : String
  plTitle : String
  plUrl : String
deriving DecidableEq

/-- Embed an optional string argument (Python `str` or `None`) as a key part. -/
def argOfOptStr : Option String → Arg
  | Option.none => Arg.none
  | some s => Arg.str s

/-- Cache key of `english_to_polish_wikipedia` (keyed by the input title). -/
def e2pKey (t : Option String) : CKey :=
  ("english_to_polish_wikipedia", [argOfOptStr t])

/-- Python truthiness of an optional string (`if not en_title`). -/
def pyTruthyOptStr : Option String → Bool
  | Option.none => false
  | some s => !(s == "")

/-- Read a cached cross-reference (an `xref` dict when present). -/
def pyvalToXref : PyVal → Option Xref
  | PyVal.xref a b c => some ⟨a, b, c⟩
  | _ => Option.none

/-- `english_to_polish_wikipedia(en_title)`.

Collaborators: `langlinks` models the enwiki `prop=langlinks` query and
returns the page's `langlinks` list as (title, url) pairs (`Res.exc` for any
exception in that step); `pageprops` models the enwiki `prop=pageprops` query
returning the `wikibase_item` id; `wikidata` models the Wikidata
`wbgetentities` query returning the `plwiki` sitelink (title, url), with
`Res.exc` covering a missing sitelink as well. -/
def english_to_polish_wikipedia
    (langlinks : String → Res (List (String × String)))
    (pageprops : String → Res String)
    (wikidata : String → Res (String × String))
    (now : Nat) (cache0 : CacheMap) (enTitle : Option String) :
    Option Xref × CacheMap × List Ev :=
  let key := e2pKey enTitle
  let gc := cache_get_key cache0 now key
  if gc.1 ≠ PyVal.none then (pyvalToXref gc.1, gc.2, [])
  else if pyTruthyOptStr enTitle = false then
    (Option.none, cache_set_key gc.2 now key PyVal.none, [])
  else
    let t := enTitle.getD ""
    match langlinks t with
    | Res.ok ((plT, plU) :: _) =>
      (some ⟨t, plT, plU⟩, cache_set_key gc.2 now key (PyVal.xref t plT plU),
        [Ev.remote "enwiki-langlinks"])
    | _ =>
      match pageprops t with
      | Res.exc =>
        (Option.none, cache_set_key gc.2 now key PyVal.none,
          [Ev.remote "enwiki-langlinks", Ev.remote "enwiki-pageprops"])
      | Res.ok qid =>
        match wikidata qid with
        | Res.exc =>
          (Option.none, cache_set_key gc.2 now key PyVal.none,
            [Ev.remote "enwiki-langlinks", Ev.remote "enwiki-pageprops",
              Ev.remote "wikidata"])
        | Res.ok (plT, plU) =>
          (some ⟨t, plT, plU⟩,
            cache_set_key gc.2 now key (PyVal.xref t plT plU),
            [Ev.remote "enwiki-langlinks", Ev.remote "enwiki-pageprops",
              Ev.remote "wikidata"])

/-! ### `diki_lookup` -/

/-- Substring test on character lists (Python `in` on `str`). -/
def hasSubstr : List Char → List Char → Bool
  | [], pat => pat.isEmpty
  | l@(_ :: rest), pat => pat.isPrefixOf l || hasSubstr rest pat

/-- The structural-marker check on the fetched Diki page:
`"foreignToNativeMeanings" not in text and 'class="hw"' not in text` triggers
the retry, so markers are present when either substring occurs. -/
def hasMarkers (text : String) : Bool :=
  hasSubstr text.data "foreignToNativeMeanings".data ||
    hasSubstr text.data "class=\"hw\"".data

/-- The abbreviation stopword set `{"np.", "np", "itp.", "itd."}` used by both
scrapers. -/
def abbrStopwords : List String := ["np.", "np", "itp.", "itd."]

/-- One `li` candidate node of the Diki result page, seen through the three
extraction selectors: the `plainLink` anchor texts, the `hw` headword texts,
and the node's full visible text. -/
structure DikiLi where
  plainLinks : List String
  hws : List String
  textContent : String
deriving DecidableEq

/-- The parsed Diki page: the `li` nodes under `ol.foreignToNativeMeanings`,
and the fallback `li.meaning | li.dictionaryEntry` nodes. -/
structure DikiDoc where
  primaryLis : List DikiLi
  fallbackLis : List DikiLi
deriving DecidableEq

/-- The selector fallback of `diki_lookup`: primary `li` nodes if any,
otherwise the broader fallback selection. -/
def dikiSelect (d : DikiDoc) : List DikiLi :=
  if d.primaryLis = [] then d.fallbackLis else d.primaryLis

/-- The inner `add(val)` helper: clean, drop empties and stopwords, keep
first occurrence only. -/
def dikiAdd (results : List String) (val : String) : List String :=
  let v := clean_text val
  if v = "" ∨ pyLower v ∈ abbrStopwords then results
  else if v ∈ results then results
  else results ++ [v]

/-- The token taken from a node's full text:
`re.split(r"[;,—–-]", full, maxsplit=1)[0]`. -/
def splitTok (s : String) : String :=
  ⟨s.data.takeWhile (fun c =>
    !(c == ';' || c == ',' || c == '—' || c == '–' || c == '-'))⟩

/-- Process one `li`: add the plain-link texts, then the headword texts, then
the de-parenthesised leading token of the full text. -/
def dikiProcessLi (acc : List String) (li : DikiLi) : List String :=
  let a1 := li.plainLinks.foldl dikiAdd acc
  let a2 := li.hws.foldl dikiAdd a1
  dikiAdd a2 (splitTok (strip_parentheticals li.textContent))

/-- The post-parse extraction of `diki_lookup`: accumulate via `add`, re-clean,
and dedup with `_uniq`. -/
def diki_extract (lis : List DikiLi) : List String :=
  let results := lis.foldl dikiProcessLi []
  let cleaned := (results.filter (fun x => !(x == ""))).map clean_text
  uniq cleaned

/-- Cache key of `diki_lookup` (keyed by the raw term). -/
def dikiKey (t : String) : CKey := ("diki_lookup", [Arg.str t])

/-- Read a cached term list. -/
def pyvalToStrList : PyVal → List String
  | PyVal.strList l => l
  | _ => []

/-- Shared tail of `diki_lookup` once a response text has been settled on:
parse it (`none` models an `html.fromstring` exception) and extract. -/
def dikiFinish (parse : String → Option DikiDoc) (c : CacheMap) (now : Nat)
    (key : CKey) (text : String) (evs : List Ev) :
    List String × CacheMap × List Ev :=
  match parse text with
  | Option.none => ([], cache_set_key c now key (PyVal.strList []), evs)
  | some d =>
    let out := diki_extract (dikiSelect d)
    (out, cache_set_key c now key (PyVal.strList out), evs)

/-- `diki_lookup(english_term)`.  `fetch1` and `fetch2` model the first and
the (at most one) retry response of the transport for the same request;
`parse` models `lxml` parsing plus the two xpath selections. -/
def diki_lookup (fetch1 fetch2 : Res String) (parse : String → Option DikiDoc)
    (now : Nat) (cache0 : CacheMap) (term0 : String) :
    List String × CacheMap × List Ev :=
  let key := dikiKey term0
  let gc := cache_get_key cache0 now key
  if gc.1 ≠ PyVal.none then (pyvalToStrList gc.1, gc.2, [])
  else
    let term := pyStrip term0
    if term = "" then ([], cache_set_key gc.2 now key (PyVal.strList []), [])
    else
      match fetch1 with
      | Res.exc =>
        ([], cache_set_key gc.2 now key (PyVal.strList []), [Ev.remote "diki"])
      | Res.ok text1 =>
        if hasMarkers text1 then
          dikiFinish parse gc.2 now key text1 [Ev.remote "diki"]
        else
          match fetch2 with
          | Res.exc =>
            ([], cache_set_key gc.2 now key (PyVal.strList []),
              [Ev.remote "diki", Ev.sleep, Ev.remote "diki"])
          | Res.ok text2 =>
            dikiFinish parse gc.2 now key text2
              [Ev.remote "diki", Ev.sleep, Ev.remote "diki"]

/-! ### ProZ scraping (`_extract_polish_terms`, `_extract_en_pl_pairs`) -/

/-- One node of a language-labelled scope, seen through the `term`-class
selector (`termTexts`) and that scope's fallback selector (`fbTexts`:
`strong/b/h1-h3` texts on the English side, leading `li` texts on the Polish
side). -/
structure ScopeNode where
  termTexts : List String
  fbTexts : List String
deriving DecidableEq

/-- One block-level candidate region of the results page with the nodes of its
English-labelled and Polish-labelled scopes. -/
structure PairBlock where
  enScope : List ScopeNode
  plScope : List ScopeNode
deriving DecidableEq

/-- The parsed ProZ page, seen through every selector the module uses:
the three staged selections of `_extract_polish_terms` (term nodes inside
Polish-mentioning containers, `li` texts after a Polish label, any
`term`-class text), plus the block segmentation of `_find_blocks` and the
whole page viewed as a single block. -/
structure ProzDoc where
  containerTerms : List String
  liTexts : List String
  broadTerms : List String
  blocks : List PairBlock
  selfBlock : PairBlock
deriving DecidableEq

/-- Term accumulation over a scope's nodes: add the `term`-class texts of each
node, and only while the accumulator is still empty also that node's fallback
texts. -/
def scopeTerms (nodes : List ScopeNode) : List String :=
  nodes.foldl (fun acc n =>
    let acc2 := acc ++ n.termTexts
    if acc2 = [] then acc2 ++ n.fbTexts else acc2) []

/-- `[_clean_text(t) for t in l if _clean_text(t)]`. -/
def cleanKept (l : List String) : List String :=
  (l.filter (fun t => !(clean_text t == ""))).map clean_text

/-- `[_clean_text(_strip_parentheticals(t)) for t in l if _clean_text(t)]`
(the Polish side of pair extraction; note the filter tests the clean of `t`
itself, not of the de-parenthesised value). -/
def cleanParenKept (l : List String) : List String :=
  (l.filter (fun t => !(clean_text t == ""))).map
    (fun t => clean_text (strip_parentheticals t))

/-- `_extract_polish_terms(doc)`: three staged selector fallbacks, then drop
empties and stopwords, then `_uniq`. -/
def extract_polish_terms (doc : ProzDoc) : List String :=
  let stage1 := doc.containerTerms.map clean_text
  let plTerms :=
    if stage1 = [] then
      let stage2 := doc.liTexts.map (fun t => clean_text (strip_parentheticals t))
      if stage2 = [] then doc.broadTerms.map clean_text else stage2
    else stage1
  let filtered := plTerms.filter (fun t =>
    !(t == "") && !(decide (pyLower t ∈ abbrStopwords)))
  uniq filtered

/-- The pair dedup at the end of `_extract_en_pl_pairs`: keep a pair when both
sides are non-empty and it has not been seen. -/
def dedupPairsAux (acc : List (String × String)) :
    List (String × String) → List (String × String)
  | [] => acc
  | p :: rest =>
    if p.1 ≠ "" ∧ p.2 ≠ "" ∧ p ∉ acc then dedupPairsAux (acc ++ [p]) rest
    else dedupPairsAux acc rest

/-- Deduplicate pairs by exact `(source, target)` equality. -/
def dedupPairs (ps : List (String × String)) : List (String × String) :=
  dedupPairsAux [] ps

/-- `_extract_en_pl_pairs(doc)`: over each usable block (both language scopes
present), pair up to 3 cleaned English terms with up to 5 cleaned Polish
terms, then dedup across all blocks. -/
def extract_en_pl_pairs (doc : ProzDoc) : List (String × String) :=
  let blocks := if doc.blocks = [] then [doc.selfBlock] else doc.blocks
  let pairs := blocks.foldl (fun acc b =>
    if b.enScope = [] ∨ b.plScope = [] then acc
    else
      let enT := cleanKept (scopeTerms b.enScope)
      let plT := cleanParenKept (scopeTerms b.plScope)
      if enT = [] ∨ plT = [] then acc
      else acc ++ (enT.take 3).foldl
        (fun a2 en => a2 ++ (plT.take 5).map (fun pl => (en, pl))) []) []
  dedupPairs pairs

/-! ### URL query parsing (`urllib.parse.urlparse` / `parse_qs`) -/

/-- Hexadecimal digit value, if any. -/
def hexVal (c : Char) : Option Nat :=
  if '0' ≤ c ∧ c ≤ '9' then some (c.toNat - '0'.toNat)
  else if 'a' ≤ c ∧ c ≤ 'f' then some (c.toNat - 'a'.toNat + 10)
  else if 'A' ≤ c ∧ c ≤ 'F' then some (c.toNat - 'A'.toNat + 10)
  else Option.none

/-- Percent-decoding: `%hh` becomes the coded character, an invalid escape
keeps its `%` literally (byte-per-char ASCII model of `urllib.parse.unquote`). -/
def pctDecode : List Char → List Char
  | [] => []
  | '%' :: a :: b :: rest =>
    match hexVal a, hexVal b with
    | some ha, some hb => Char.ofNat (16 * ha + hb) :: pctDecode rest
    | _, _ => '%' :: pctDecode (a :: b :: rest)
  | c :: rest => c :: pctDecode rest

/-- `urllib.parse.unquote_plus`: `+` to space, then percent-decode. -/
def unquotePlus (s : String) : String :=
  ⟨pctDecode (s.data.map (fun c => if c = '+' then ' ' else c))⟩

/-- The query component of a URL: the fragment (first `#` onwards) is split
off first, then everything after the first `?` of what remains. -/
def urlQuery (s : String) : String :=
  let beforeFrag := s.data.takeWhile (fun c => !(c == '#'))
  ⟨(beforeFrag.dropWhile (fun c => !(c == '?'))).drop 1⟩

/-- Split a character list on `&` (Python `str.split("&")`); the accumulator
holds the current field reversed. -/
def splitAmpAux : List Char → List Char → List (List Char)
  | [], cur => [cur.reverse]
  | '&' :: rest, cur => cur.reverse :: splitAmpAux rest []
  | c :: rest, cur => splitAmpAux rest (c :: cur)

/-- `urllib.parse.parse_qsl` with default options: split on `&`, skip fields
without `=` and fields with an empty value, unquote names and values. -/
def parseQS (qs : String) : List (String × String) :=
  (splitAmpAux qs.data []).filterMap (fun fld =>
    if fld = [] then Option.none
    else if '=' ∈ fld then
      let name := fld.takeWhile (fun c => !(c == '='))
      let value := (fld.dropWhile (fun c => !(c == '='))).drop 1
      if value = [] then Option.none
      else some (unquotePlus ⟨name⟩, unquotePlus ⟨value⟩)
    else Option.none)

/-- All values of the `term` query-string parameter, in order. -/
def termParamValues (s : String) : List String :=
  ((parseQS (urlQuery s)).filter (fun kv => kv.1 == "term")).map (fun kv => kv.2)

/-- `parse_qs(urlparse(s).query).get("term", [s])[0]`: the first `term` value,
defaulting to the whole string. -/
def queryTermOf (s : String) : String := (termParamValues s).head?.getD s

/-! ### `proz_lookup` and `proz_lookup_pairs` -/

/-- Embed an optional int argument (Python `int` or `None`) as a key part. -/
def argOfOptInt : Option Int → Arg
  | Option.none => Arg.none
  | some n => Arg.int n

/-- Cache key of `proz_lookup` (`"proz_lookup_v2"`, term and limit). -/
def prozKey (q : String) (m : Option Int) : CKey :=
  ("proz_lookup_v2", [Arg.str q, argOfOptInt m])

/-- Cache key of `proz_lookup_pairs` (`"proz_lookup_pairs_v1"`). -/
def prozPairsKey (q : String) (m : Option Int) : CKey :=
  ("proz_lookup_pairs_v1", [Arg.str q, argOfOptInt m])

/-- Read a cached pair list. -/
def pyvalToPairs : PyVal → List (String × String)
  | PyVal.pairList l => l
  | _ => []

/-- The URL test `s.lower().startswith("http")`. -/
def looksLikeUrl (s : String) : Bool :=
  ("http".data).isPrefixOf (pyLower s).data

/-- `proz_lookup(english_term_or_url, max_results)`.  `fetch` models
`_fetch_proz` (its boolean argument distinguishes the direct-URL request from
the built search request; `none` is any transport/parse failure).  The limit
is `Option Int` so that Python `None` is representable; the declared default
is `some 50`. -/
def proz_lookup (fetch : Bool → String → Option ProzDoc) (now : Nat)
    (cache0 : CacheMap) (q : String) (maxResults : Option Int) :
    List String × CacheMap × List Ev :=
  let key := prozKey q maxResults
  let gc := cache_get_key cache0 now key
  if gc.1 ≠ PyVal.none then (pyvalToStrList gc.1, gc.2, [])
  else
    let s := pyStrip q
    match fetch (looksLikeUrl s) s with
    | Option.none =>
      ([], cache_set_key gc.2 now key (PyVal.strList []), [Ev.remote "proz"])
    | some doc =>
      let results := extract_polish_terms doc
      let out := match maxResults with
        | some n => if n ≠ 0 ∧ 0 < n then results.take n.toNat else results
        | Option.none => results
      (out, cache_set_key gc.2 now key (PyVal.strList out), [Ev.remote "proz"])

/-- `proz_lookup_pairs(english_term_or_url, max_pairs)`. -/
def proz_lookup_pairs (fetch : Bool → String → Option ProzDoc) (now : Nat)
    (cache0 : CacheMap) (q : String) (maxPairs : Option Int) :
    List (String × String) × CacheMap × List Ev :=
  let key := prozPairsKey q maxPairs
  let gc := cache_get_key cache0 now key
  if gc.1 ≠ PyVal.none then (pyvalToPairs gc.1, gc.2, [])
  else
    let s := pyStrip q
    let isUrl := looksLikeUrl s
    let queryTerm := if isUrl then queryTermOf s else s
    match fetch isUrl s with
    | Option.none =>
      ([], cache_set_key gc.2 now key (PyVal.pairList []), [Ev.remote "proz"])
    | some doc =>
      let pairs0 := extract_en_pl_pairs doc
      let pairs := if pairs0 = [] then
          (extract_polish_terms doc).map (fun pl => (queryTerm, pl))
        else pairs0
      let out := match maxPairs with
        | some n => if n ≠ 0 ∧ 0 < n then pairs.take n.toNat else pairs
        | Option.none => pairs
      (out, cache_set_key gc.2 now key (PyVal.pairList out), [Ev.remote "proz"])

/-! ## Helper lemmas -/

theorem dw_head {α : Type} {p : α → Bool} {l : List α} {c : α} {rest : List α}
    (h : l.dropWhile p = c :: rest) : p c = false := by
  have hh := List.head?_dropWhile_not p l
  rw [h] at hh
  simpa using hh

theorem dw_nofix {α : Type} {p : α → Bool} {l : List α}
    (h : ∀ c rest, l = c :: rest → p c = false) : l.dropWhile p = l := by
  cases l with
  | nil => rfl
  | cons a t =>
    have := h a t rfl
    simp [List.dropWhile_cons, this]

theorem dropTrail_pfx (p : Char → Bool) (l : List Char) :
    dropTrail p l <+: l := by
  have h := (List.dropWhile_suffix (l := l.reverse) p).reverse
  simpa [dropTrail] using h

theorem stripBoth_infix (p : Char → Bool) (l : List Char) :
    stripBoth p l <:+: l :=
  (dropTrail_pfx p (l.dropWhile p)).isInfix.trans
    (List.dropWhile_suffix p).isInfix

theorem stripBoth_head {p : Char → Bool} {l : List Char} {c : Char}
    {rest : List Char} (h : stripBoth p l = c :: rest) : p c = false := by
  obtain ⟨t, ht⟩ := dropTrail_pfx p (l.dropWhile p)
  rw [stripBoth] at h
  rw [h] at ht
  exact dw_head ht.symm

theorem stripBoth_revhead {p : Char → Bool} {l : List Char} {c : Char}
    {rest : List Char} (h : (stripBoth p l).reverse = c :: rest) :
    p c = false := by
  have he : (stripBoth p l).reverse = (l.dropWhile p).reverse.dropWhile p := by
    simp [stripBoth, dropTrail]
  rw [he] at h
  exact dw_head h

theorem stripBoth_fix {p : Char → Bool} {l : List Char}
    (h1 : ∀ c rest, l = c :: rest → p c = false)
    (h2 : ∀ c rest, l.reverse = c :: rest → p c = false) :
    stripBoth p l = l := by
  rw [stripBoth, dw_nofix h1, dropTrail, dw_nofix h2, List.reverse_reverse]

theorem collapse_ws : ∀ (b : Bool) (l : List Char) (c : Char),
    c ∈ collapseAux b l → pyIsSpace c = true → c = ' ' := by
  intro b l
  induction l generalizing b with
  | nil => intro c hc _; simp [collapseAux] at hc
  | cons d rest ih =>
    intro c hc hws
    by_cases hd : pyIsSpace d
    · cases b with
      | true =>
        rw [collapseAux, if_pos hd, if_pos rfl] at hc
        exact ih true c hc hws
      | false =>
        rw [collapseAux, if_pos hd] at hc
        simp only [Bool.false_eq_true, if_false, List.mem_cons] at hc
        rcases hc with rfl | hc
        · rfl
        · exact ih true c hc hws
    · rw [collapseAux, if_neg hd] at hc
      rcases List.mem_cons.mp hc with rfl | hc
      · exact absurd hws (by simpa using hd)
      · exact ih false c hc hws

theorem collapse_head_true : ∀ (l : List Char) (c : Char),
    (collapseAux true l).head? = some c → pyIsSpace c = false := by
  intro l
  induction l with
  | nil => intro c hc; simp [collapseAux] at hc
  | cons d rest ih =>
    intro c hc
    by_cases hd : pyIsSpace d
    · rw [collapseAux, if_pos hd, if_pos rfl] at hc
      exact ih c hc
    · rw [collapseAux, if_neg hd] at hc
      simp only [List.head?_cons, Option.some.injEq] at hc
      subst hc
      simpa using hd

theorem collapse_chain : ∀ (b : Bool) (l : List Char),
    List.Chain' (fun a b' => ¬(a = ' ' ∧ b' = ' ')) (collapseAux b l) := by
  intro b l
  induction l generalizing b with
  | nil => simp [collapseAux]
  | cons d rest ih =>
    by_cases hd : pyIsSpace d
    · cases b with
      | true =>
        rw [collapseAux, if_pos hd, if_pos rfl]
        exact ih true
      | false =>
        rw [collapseAux, if_pos hd]
        simp only [Bool.false_eq_true, if_false]
        refine List.chain'_cons'.mpr ⟨?_, ih true⟩
        intro y hy
        rintro ⟨-, rfl⟩
        have := collapse_head_true rest ' ' hy
        simp [pyIsSpace] at this
    · rw [collapseAux, if_neg hd]
      refine List.chain'_cons'.mpr ⟨?_, ih false⟩
      intro y _
      rintro ⟨rfl, -⟩
      simp [pyIsSpace] at hd

theorem collapse_fix (l : List Char)
    (hws : ∀ c ∈ l, pyIsSpace c = true → c = ' ')
    (hch : List.Chain' (fun a b' => ¬(a = ' ' ∧ b' = ' ')) l) :
    collapseAux false l = l ∧
      ((∀ c ∈ l.head?, c ≠ ' ') → collapseAux true l = l) := by
  induction l with
  | nil => exact ⟨rfl, fun _ => rfl⟩
  | cons c rest ih =>
    have hws' : ∀ x ∈ rest, pyIsSpace x = true → x = ' ' :=
      fun x hx => hws x (List.mem_cons_of_mem c hx)
    have hch' : List.Chain' (fun a b' => ¬(a = ' ' ∧ b' = ' ')) rest := hch.tail
    obtain ⟨ihf, iht⟩ := ih hws' hch'
    by_cases hc : pyIsSpace c
    · have hcsp : c = ' ' := hws c (List.mem_cons_self c rest) hc
      subst hcsp
      have hrest : ∀ x ∈ rest.head?, x ≠ ' ' := by
        intro x hx hx'
        subst hx'
        exact (List.chain'_cons'.mp hch).1 ' ' hx ⟨rfl, rfl⟩
      constructor
      · rw [collapseAux, if_pos hc]
        simp only [Bool.false_eq_true, if_false]
        rw [iht hrest]
      · intro hhead
        exact absurd rfl (hhead ' ' (by simp))
    · constructor
      · rw [collapseAux, if_neg hc, ihf]
      · intro _
        rw [collapseAux, if_neg hc, ihf]

theorem cleanChars_idem (l : List Char) :
    cleanChars (cleanChars l) = cleanChars l := by
  have hwsz : ∀ c ∈ collapseAux false (stripBoth pyIsSpace l),
      pyIsSpace c = true → c = ' ' := collapse_ws false _
  have hchz := collapse_chain false (stripBoth pyIsSpace l)
  have hsub := stripBoth_infix isPunct (collapseAux false (stripBoth pyIsSpace l))
  have hwsy : ∀ c ∈ cleanChars l, pyIsSpace c = true → c = ' ' :=
    fun c hc => hwsz c (hsub.sublist.subset hc)
  have hchy : List.Chain' (fun a b' => ¬(a = ' ' ∧ b' = ' ')) (cleanChars l) :=
    hchz.infix hsub
  have hhead : ∀ c rest, cleanChars l = c :: rest → isPunct c = false :=
    fun c rest h => stripBoth_head h
  have hrev : ∀ c rest, (cleanChars l).reverse = c :: rest → isPunct c = false :=
    fun c rest h => stripBoth_revhead h
  have hno : ∀ c rest, cleanChars l = c :: rest → pyIsSpace c = false := by
    intro c rest h
    by_contra hcs
    have hc' : c = ' ' := hwsy c (h ▸ List.mem_cons_self c rest) (by simpa using hcs)
    have := hhead c rest h
    rw [hc'] at this
    simp [isPunct, punctChars] at this
  have hnoR : ∀ c rest, (cleanChars l).reverse = c :: rest →
      pyIsSpace c = false := by
    intro c rest h
    by_contra hcs
    have hmem : c ∈ cleanChars l := by
      rw [← List.mem_reverse, h]; exact List.mem_cons_self c rest
    have hc' : c = ' ' := hwsy c hmem (by simpa using hcs)
    have := hrev c rest h
    rw [hc'] at this
    simp [isPunct, punctChars] at this
  have h1 : stripBoth pyIsSpace (cleanChars l) = cleanChars l :=
    stripBoth_fix hno hnoR
  have h2 : collapseAux false (cleanChars l) = cleanChars l :=
    (collapse_fix _ hwsy hchy).1
  have h3 : stripBoth isPunct (cleanChars l) = cleanChars l :=
    stripBoth_fix hhead hrev
  show stripBoth isPunct
      (collapseAux false (stripBoth pyIsSpace (cleanChars l))) = cleanChars l
  rw [h1, h2, h3]

theorem clean_text_idem (s : String) :
    clean_text (clean_text s) = clean_text s :=
  congrArg String.mk (cleanChars_idem s.data)

theorem uniqAux_mem : ∀ (l out : List String) (x : String),
    x ∈ uniqAux out l → x ∈ out ∨ (x ∈ l ∧ x ≠ "") := by
  intro l
  induction l with
  | nil => intro out x hx; exact Or.inl hx
  | cons s rest ih =>
    intro out x hx
    rw [uniqAux] at hx
    split at hx
    · rcases ih (out ++ [s]) x hx with h | h
      · rcases List.mem_append.mp h with h' | h'
        · exact Or.inl h'
        · rename_i hcond
          simp only [List.mem_singleton] at h'
          subst h'
          exact Or.inr ⟨List.mem_cons_self x rest, hcond.1⟩
      · exact Or.inr ⟨List.mem_cons_of_mem s h.1, h.2⟩
    · rcases ih out x hx with h | h
      · exact Or.inl h
      · exact Or.inr ⟨List.mem_cons_of_mem s h.1, h.2⟩

theorem uniqAux_nodup : ∀ (l out : List String),
    out.Nodup → (uniqAux out l).Nodup := by
  intro l
  induction l with
  | nil => intro out h; exact h
  | cons s rest ih =>
    intro out h
    rw [uniqAux]
    split
    · rename_i hcond
      refine ih (out ++ [s]) (List.nodup_append.mpr ⟨h, List.nodup_singleton s, ?_⟩)
      intro a ha hb
      simp only [List.mem_singleton] at hb
      subst hb
      exact hcond.2 ha
    · exact ih out h

theorem uniq_nodup (l : List String) : (uniq l).Nodup :=
  uniqAux_nodup l [] List.nodup_nil

theorem uniq_mem {l : List String} {x : String} (h : x ∈ uniq l) :
    x ∈ l ∧ x ≠ "" := by
  rcases uniqAux_mem l [] x h with h' | h'
  · simp at h'
  · exact h'

theorem dedupPairsAux_mem : ∀ (l acc : List (String × String))
    (x : String × String), x ∈ dedupPairsAux acc l →
    x ∈ acc ∨ (x ∈ l ∧ x.1 ≠ "" ∧ x.2 ≠ "") := by
  intro l
  induction l with
  | nil => intro acc x hx; exact Or.inl hx
  | cons p rest ih =>
    intro acc x hx
    rw [dedupPairsAux] at hx
    split at hx
    · rcases ih (acc ++ [p]) x hx with h | h
      · rcases List.mem_append.mp h with h' | h'
        · exact Or.inl h'
        · rename_i hcond
          simp only [List.mem_singleton] at h'
          subst h'
          exact Or.inr ⟨List.mem_cons_self x rest, hcond.1, hcond.2.1⟩
      · exact Or.inr ⟨List.mem_cons_of_mem p h.1, h.2⟩
    · rcases ih acc x hx with h | h
      · exact Or.inl h
      · exact Or.inr ⟨List.mem_cons_of_mem p h.1, h.2⟩

theorem dedupPairsAux_nodup : ∀ (l acc : List (String × String)),
    acc.Nodup → (dedupPairsAux acc l).Nodup := by
  intro l
  induction l with
  | nil => intro acc h; exact h
  | cons p rest ih =>
    intro acc h
    rw [dedupPairsAux]
    split
    · rename_i hcond
      refine ih (acc ++ [p])
        (List.nodup_append.mpr ⟨h, List.nodup_singleton p, ?_⟩)
      intro a ha hb
      simp only [List.mem_singleton] at hb
      subst hb
      exact hcond.2.2 ha
    · exact ih acc h

theorem dedupPairs_nodup (l : List (String × String)) : (dedupPairs l).Nodup :=
  dedupPairsAux_nodup l [] List.nodup_nil

theorem dikiAdd_mem {acc : List String} {v x : String}
    (h : x ∈ dikiAdd acc v) :
    x ∈ acc ∨ (x ≠ "" ∧ pyLower x ∉ abbrStopwords ∧ clean_text x = x) := by
  rw [dikiAdd] at h
  split at h
  · exact Or.inl h
  · split at h
    · exact Or.inl h
    · rcases List.mem_append.mp h with h' | h'
      · exact Or.inl h'
      · rename_i hcond hdup
        simp only [List.mem_singleton] at h'
        subst h'
        push_neg at hcond
        exact Or.inr ⟨hcond.1, hcond.2, clean_text_idem v⟩

theorem foldl_dikiAdd_mem : ∀ (vals acc : List String),
    (∀ x ∈ acc, x ≠ "" ∧ pyLower x ∉ abbrStopwords ∧ clean_text x = x) →
    ∀ x ∈ vals.foldl dikiAdd acc,
      x ≠ "" ∧ pyLower x ∉ abbrStopwords ∧ clean_text x = x := by
  intro vals
  induction vals with
  | nil => intro acc hacc x hx; exact hacc x hx
  | cons v rest ih =>
    intro acc hacc x hx
    refine ih (dikiAdd acc v) ?_ x hx
    intro y hy
    rcases dikiAdd_mem hy with h | h
    · exact hacc y h
    · exact h

theorem dikiProcessLi_mem (acc : List String) (li : DikiLi)
    (hacc : ∀ x ∈ acc, x ≠ "" ∧ pyLower x ∉ abbrStopwords ∧ clean_text x = x) :
    ∀ x ∈ dikiProcessLi acc li,
      x ≠ "" ∧ pyLower x ∉ abbrStopwords ∧ clean_text x = x := by
  intro x hx
  rw [dikiProcessLi] at hx
  rcases dikiAdd_mem hx with h | h
  · exact foldl_dikiAdd_mem li.hws _ (foldl_dikiAdd_mem li.plainLinks acc hacc) x h
  · exact h

theorem diki_results_mem : ∀ (lis : List DikiLi) (acc : List String),
    (∀ x ∈ acc, x ≠ "" ∧ pyLower x ∉ abbrStopwords ∧ clean_text x = x) →
    ∀ x ∈ lis.foldl dikiProcessLi acc,
      x ≠ "" ∧ pyLower x ∉ abbrStopwords ∧ clean_text x = x := by
  intro lis
  induction lis with
  | nil => intro acc hacc x hx; exact hacc x hx
  | cons li rest ih =>
    intro acc hacc x hx
    rw [List.foldl_cons] at hx
    exact ih (dikiProcessLi acc li) (dikiProcessLi_mem acc li hacc) x hx

theorem cacheFind_erase : ∀ (c : CacheMap) (k : CKey),
    cacheFind (cacheErase c k) k = Option.none := by
  intro c k
  induction c with
  | nil => rfl
  | cons e rest ih =>
    rw [cacheErase]
    split
    · exact ih
    · rename_i hne
      rw [cacheFind, if_neg hne]
      exact ih

theorem cacheErase_idem : ∀ (c : CacheMap) (k : CKey),
    cacheErase (cacheErase c k) k = cacheErase c k := by
  intro c k
  induction c with
  | nil => rfl
  | cons e rest ih =>
    rw [cacheErase]
    split
    · exact ih
    · rename_i hne
      rw [cacheErase, if_neg hne, ih]

theorem cacheFind_set (c : CacheMap) (now : Nat) (k : CKey) (v : PyVal) :
    cacheFind (cache_set_key c now k v) k = some (now, v) := by
  rw [cache_set_key, cacheFind, if_pos rfl]

theorem cacheErase_set (c : CacheMap) (now : Nat) (k : CKey) (v : PyVal) :
    cacheErase (cache_set_key c now k v) k = cacheErase c k := by
  rw [cache_set_key, cacheErase, if_pos rfl, cacheErase_idem]

/-! ## Claim theorems -/

/-- Claim C1 (code bug): after a query whose search yields no hit has been
resolved once — so its absent outcome sits in the cache — an immediate second
`resolve` of the same query still performs one remote search call: the
`cached is not None` check treats the cached `None` as a cache miss.  The
claim asserts no second remote call is made; this trace refutes that on the
code as written. -/
theorem resolve_cached_absent_still_refetches :
    (resolve_en_title (fun _ => Option.none) 0 [] "nosuchterm").1
      = Option.none ∧
    cacheFind (resolve_en_title (fun _ => Option.none) 0 [] "nosuchterm").2.1
      (resolveKey "nosuchterm") = some (0, PyVal.none) ∧
    remoteCount (resolve_en_title (fun _ => Option.none) 0
        (resolve_en_title (fun _ => Option.none) 0 [] "nosuchterm").2.1
        "nosuchterm").2.2 = 1 :=
  ⟨rfl, rfl, rfl⟩

/-- Claim C2: a cache entry inserted at time `t` and read at any time strictly
later than `t + CACHE_TTL` reads back as absent, is evicted by that read, and
the reading operation (here the title resolver) behaves exactly as if the
entry had never been present, i.e. it recomputes. -/
theorem cache_stale_read_absent_evicted_recomputed
    (c : CacheMap) (k : CKey) (t tr : Nat) (v : PyVal)
    (search : String → Option String) (q : String)
    (h : t + CACHE_TTL < tr) :
    (cache_get_key (cache_set_key c t k v) tr k).1 = PyVal.none ∧
    cacheFind (cache_get_key (cache_set_key c t k v) tr k).2 k
      = Option.none ∧
    resolve_en_title search tr (cache_set_key c t (resolveKey q) v) q
      = resolve_en_title search tr (cacheErase c (resolveKey q)) q := by
  have hget : ∀ (k' : CKey) (v' : PyVal),
      cache_get_key (cache_set_key c t k' v') tr k'
        = (PyVal.none, cacheErase c k') := by
    intro k' v'
    simp only [cache_get_key, cacheFind_set]
    rw [if_pos (by omega : tr - t > CACHE_TTL), cacheErase_set]
  have h2 : cache_get_key (cacheErase c (resolveKey q)) tr (resolveKey q)
      = (PyVal.none, cacheErase c (resolveKey q)) := by
    rw [cache_get_key, cacheFind_erase]
  refine ⟨by rw [hget], by rw [hget]; exact cacheFind_erase c k, ?_⟩
  simp only [resolve_en_title, hget, h2]

/-- Claim C2 witness: a title cached at time 0 and read one second past the
TTL is treated as absent, evicted, and recomputed. -/
theorem cache_stale_read_witness :
    0 + CACHE_TTL < CACHE_TTL + 1 ∧
    ((cache_get_key (cache_set_key [] 0 (resolveKey "cat") (PyVal.str "Cat"))
        (CACHE_TTL + 1) (resolveKey "cat")).1 = PyVal.none ∧
      cacheFind
        (cache_get_key (cache_set_key [] 0 (resolveKey "cat") (PyVal.str "Cat"))
          (CACHE_TTL + 1) (resolveKey "cat")).2 (resolveKey "cat")
        = Option.none ∧
      resolve_en_title (fun _ => some "Feline") (CACHE_TTL + 1)
          (cache_set_key [] 0 (resolveKey "cat") (PyVal.str "Cat")) "cat"
        = resolve_en_title (fun _ => some "Feline") (CACHE_TTL + 1)
          (cacheErase [] (resolveKey "cat")) "cat") :=
  ⟨by decide,
    cache_stale_read_absent_evicted_recomputed [] (resolveKey "cat") 0
      (CACHE_TTL + 1) (PyVal.str "Cat") (fun _ => some "Feline") "cat"
      (by decide)⟩

/-- Claim C3: on a cache miss, a query matching the reference-page URL pattern
resolves to the decoded path segment (underscores to spaces, `%28`/`%29`
unescaped) and the resolver performs no remote call at all. -/
theorem resolve_url_decodes_without_remote
    (search : String → Option String) (now : Nat) (c : CacheMap)
    (q raw : String)
    (hmiss : (cache_get_key c now (resolveKey q)).1 = PyVal.none)
    (hmatch : wikiUrlMatch (pyStrip q) = some raw) :
    (resolve_en_title search now c q).1 = some (decodeWikiTitle raw) ∧
    (resolve_en_title search now c q).2.2 = [] := by
  constructor <;> simp only [resolve_en_title, hmiss, hmatch] <;> simp

/-- Claim C3 witness: the spec's own example URL decodes to
`"Burkitt lymphoma"` with an empty event trace. -/
theorem resolve_url_decodes_witness :
    (cache_get_key [] 0
      (resolveKey "https://en.wikipedia.org/wiki/Burkitt_lymphoma")).1
      = PyVal.none ∧
    wikiUrlMatch (pyStrip "https://en.wikipedia.org/wiki/Burkitt_lymphoma")
      = some "Burkitt_lymphoma" ∧
    (resolve_en_title (fun _ => Option.none) 0 []
        "https://en.wikipedia.org/wiki/Burkitt_lymphoma").1
      = some "Burkitt lymphoma" ∧
    (resolve_en_title (fun _ => Option.none) 0 []
        "https://en.wikipedia.org/wiki/Burkitt_lymphoma").2.2 = [] := by
  have h := resolve_url_decodes_without_remote (fun _ => Option.none) 0 []
    "https://en.wikipedia.org/wiki/Burkitt_lymphoma" "Burkitt_lymphoma" rfl rfl
  exact ⟨rfl, rfl, by rw [h.1]; rfl, h.2⟩

/-- Claim C4: term extraction — both Diki's post-parse extraction and the ProZ
Polish-term extractor — never returns a duplicate, an empty string, or a
member of the abbreviation stopword set, for any fetched page content. -/
theorem extraction_no_dup_no_empty_no_stopword
    (lis : List DikiLi) (doc : ProzDoc) :
    (diki_extract lis).Nodup ∧
    (∀ x ∈ diki_extract lis, x ≠ "" ∧ pyLower x ∉ abbrStopwords) ∧
    (extract_polish_terms doc).Nodup ∧
    (∀ x ∈ extract_polish_terms doc,
      x ≠ "" ∧ pyLower x ∉ abbrStopwords) := by
  refine ⟨uniq_nodup _, ?_, uniq_nodup _, ?_⟩
  · intro x hx
    obtain ⟨hxc, hxe⟩ := uniq_mem
      (show x ∈ uniq (((lis.foldl dikiProcessLi []).filter
        (fun y => !(y == ""))).map clean_text) from hx)
    obtain ⟨r, hr, rfl⟩ := List.mem_map.mp hxc
    have hrmem := (List.mem_filter.mp hr).1
    have hprops := diki_results_mem lis []
      (by intro y hy; simp at hy) r hrmem
    rw [hprops.2.2]
    exact ⟨hprops.1, hprops.2.1⟩
  · intro x hx
    obtain ⟨hxf, hxe⟩ := uniq_mem (show x ∈ uniq _ from hx)
    have hp := (List.mem_filter.mp hxf).2
    simp only [Bool.and_eq_true, Bool.not_eq_true', beq_eq_false_iff_ne,
      decide_eq_false_iff_not] at hp
    exact ⟨hxe, hp.2⟩

/-- Claim C4 witness: concrete members of both extractors' outputs are
non-empty and not stopwords. -/
theorem extraction_no_dup_witness :
    "kot" ≠ "" ∧ pyLower "kot" ∉ abbrStopwords ∧
    "dom" ≠ "" ∧ pyLower "dom" ∉ abbrStopwords := by
  have h := extraction_no_dup_no_empty_no_stopword
    [⟨["kot"], [], ""⟩] ⟨["dom"], [], [], [], ⟨[], []⟩⟩
  have h1 := h.2.1 "kot" (by decide)
  have h2 := h.2.2.2 "dom" (by decide)
  exact ⟨h1.1, h1.2, h2.1, h2.2⟩

theorem pairsResult_nodup (doc : ProzDoc) (qt : String) :
    (if extract_en_pl_pairs doc = [] then
        (extract_polish_terms doc).map (fun pl => (qt, pl))
      else extract_en_pl_pairs doc).Nodup := by
  split
  · refine List.Nodup.map ?_ (uniq_nodup _)
    intro a b hab
    simpa using hab
  · exact dedupPairs_nodup _

/-- Claim C5: the pair list returned by `proz_lookup_pairs` (on a cache miss)
has length at most `maxPairs` whenever `maxPairs` is positive, and never
contains two equal `(source, target)` tuples, whatever the limit and the
fetched page. -/
theorem proz_pairs_bounded_and_nodup
    (fetch : Bool → String → Option ProzDoc) (now : Nat) (c : CacheMap)
    (q : String) (maxPairs : Option Int)
    (hmiss : (cache_get_key c now (prozPairsKey q maxPairs)).1 = PyVal.none) :
    (∀ n : Int, maxPairs = some n → 0 < n →
      ((proz_lookup_pairs fetch now c q maxPairs).1).length ≤ n.toNat) ∧
    ((proz_lookup_pairs fetch now c q maxPairs).1).Nodup := by
  cases hf : fetch (looksLikeUrl (pyStrip q)) (pyStrip q) with
  | none =>
    have hval : (proz_lookup_pairs fetch now c q maxPairs).1 = [] := by
      simp only [proz_lookup_pairs, hmiss, hf]
      simp
    rw [hval]
    exact ⟨fun n _ _ => by simp, List.nodup_nil⟩
  | some doc =>
    have hnd := pairsResult_nodup doc
      (if looksLikeUrl (pyStrip q) then queryTermOf (pyStrip q) else pyStrip q)
    cases maxPairs with
    | none =>
      have hval : (proz_lookup_pairs fetch now c q Option.none).1 =
          (if extract_en_pl_pairs doc = [] then
            (extract_polish_terms doc).map (fun pl =>
              ((if looksLikeUrl (pyStrip q) then queryTermOf (pyStrip q)
                else pyStrip q), pl))
          else extract_en_pl_pairs doc) := by
        simp only [proz_lookup_pairs, hmiss, hf]
        simp
      refine ⟨fun n hn _ => (by cases hn), ?_⟩
      rw [hval]
      exact hnd
    | some m =>
      by_cases hm : m ≠ 0 ∧ 0 < m
      · have hval : (proz_lookup_pairs fetch now c q (some m)).1 =
            (if extract_en_pl_pairs doc = [] then
              (extract_polish_terms doc).map (fun pl =>
                ((if looksLikeUrl (pyStrip q) then queryTermOf (pyStrip q)
                  else pyStrip q), pl))
            else extract_en_pl_pairs doc).take m.toNat := by
          simp only [proz_lookup_pairs, hmiss, hf]
          simp [hm.1, hm.2]
        constructor
        · intro n hn _
          cases hn
          rw [hval]
          exact List.length_take_le _ _
        · rw [hval]
          exact List.Nodup.sublist (List.take_sublist _ _) hnd
      · have hval : (proz_lookup_pairs fetch now c q (some m)).1 =
            (if extract_en_pl_pairs doc = [] then
              (extract_polish_terms doc).map (fun pl =>
                ((if looksLikeUrl (pyStrip q) then queryTermOf (pyStrip q)
                  else pyStrip q), pl))
            else extract_en_pl_pairs doc) := by
          simp only [proz_lookup_pairs, hmiss, hf]
          rw [if_neg hm]
          simp
        constructor
        · intro n hn hpos
          cases hn
          exact absurd ⟨by omega, hpos⟩ hm
        · rw [hval]
          exact hnd

/-- Claim C5 witness: with a positive limit of 1 and two extractable terms,
the result has length at most 1 and no duplicates. -/
theorem proz_pairs_bounded_witness :
    (cache_get_key [] 0 (prozPairsKey "cat" (some 1))).1 = PyVal.none ∧
    ((proz_lookup_pairs
        (fun _ _ => some ⟨["kot", "pies"], [], [], [], ⟨[], []⟩⟩)
        0 [] "cat" (some 1)).1).length ≤ (1 : Int).toNat ∧
    ((proz_lookup_pairs
        (fun _ _ => some ⟨["kot", "pies"], [], [], [], ⟨[], []⟩⟩)
        0 [] "cat" (some 1)).1).Nodup := by
  have h := proz_pairs_bounded_and_nodup
    (fun _ _ => some ⟨["kot", "pies"], [], [], [], ⟨[], []⟩⟩)
    0 [] "cat" (some 1) rfl
  exact ⟨rfl, h.1 1 rfl (by decide), h.2⟩

/-- Claim C6: on a cache miss with a successful fetch, `proz_lookup` truncates
its term list to a positive `max_results`; a limit of zero, or an explicitly
absent (Python `None`) limit, leaves the list untruncated.  (The declared
default of the parameter is 50, i.e. `some 50`.) -/
theorem proz_lookup_truncation
    (fetch : Bool → String → Option ProzDoc) (now : Nat) (c : CacheMap)
    (q : String) (maxResults : Option Int) (doc : ProzDoc)
    (hmiss : (cache_get_key c now (prozKey q maxResults)).1 = PyVal.none)
    (hfetch : fetch (looksLikeUrl (pyStrip q)) (pyStrip q) = some doc) :
    (∀ n : Int, maxResults = some n → 0 < n →
      (proz_lookup fetch now c q maxResults).1
        = (extract_polish_terms doc).take n.toNat ∧
      ((proz_lookup fetch now c q maxResults).1).length ≤ n.toNat) ∧
    (maxResults = some 0 →
      (proz_lookup fetch now c q maxResults).1 = extract_polish_terms doc) ∧
    (maxResults = Option.none →
      (proz_lookup fetch now c q maxResults).1 = extract_polish_terms doc) := by
  refine ⟨?_, ?_, ?_⟩
  · intro n hn hpos
    subst hn
    have hval : (proz_lookup fetch now c q (some n)).1
        = (extract_polish_terms doc).take n.toNat := by
      simp only [proz_lookup, hmiss, hfetch]
      rw [if_pos (show n ≠ 0 ∧ 0 < n from ⟨by omega, hpos⟩)]
      simp
    refine ⟨hval, ?_⟩
    rw [hval]
    exact List.length_take_le _ _
  · intro hz
    subst hz
    simp only [proz_lookup, hmiss, hfetch]
    simp
  · intro hz
    subst hz
    simp only [proz_lookup, hmiss, hfetch]
    simp

/-- Claim C6 witness: limit 2 truncates a three-term list; limit 0 and limit
`None` return it whole. -/
theorem proz_lookup_truncation_witness :
    (proz_lookup (fun _ _ => some ⟨["a", "b", "c"], [], [], [], ⟨[], []⟩⟩)
        0 [] "cat" (some 2)).1 = ["a", "b"] ∧
    (proz_lookup (fun _ _ => some ⟨["a", "b", "c"], [], [], [], ⟨[], []⟩⟩)
        0 [] "cat" (some 0)).1 = ["a", "b", "c"] ∧
    (proz_lookup (fun _ _ => some ⟨["a", "b", "c"], [], [], [], ⟨[], []⟩⟩)
        0 [] "cat" Option.none).1 = ["a", "b", "c"] := by
  have h2 := proz_lookup_truncation
    (fun _ _ => some ⟨["a", "b", "c"], [], [], [], ⟨[], []⟩⟩)
    0 [] "cat" (some 2) ⟨["a", "b", "c"], [], [], [], ⟨[], []⟩⟩ rfl rfl
  have h0 := proz_lookup_truncation
    (fun _ _ => some ⟨["a", "b", "c"], [], [], [], ⟨[], []⟩⟩)
    0 [] "cat" (some 0) ⟨["a", "b", "c"], [], [], [], ⟨[], []⟩⟩ rfl rfl
  have hn := proz_lookup_truncation
    (fun _ _ => some ⟨["a", "b", "c"], [], [], [], ⟨[], []⟩⟩)
    0 [] "cat" Option.none ⟨["a", "b", "c"], [], [], [], ⟨[], []⟩⟩ rfl rfl
  refine ⟨?_, ?_, ?_⟩
  · rw [(h2.1 2 rfl (by decide)).1]; rfl
  · rw [h0.2.1 rfl]; rfl
  · rw [hn.2.2 rfl]; rfl

/-- Claim C7, corrected part (counterexample to the claim as stated): when the
first Diki response lacks the structural markers and the retry fails with a
transport error, the lookup gives up with an empty result — it does not
continue to the fallback extraction, which here would have produced
`["kot"]`. -/
theorem diki_retry_failure_gives_empty :
    (diki_lookup (Res.ok "no structural markers here") Res.exc
        (fun _ => some ⟨[], [⟨["kot"], [], ""⟩]⟩) 0 [] "cat").1 = [] ∧
    diki_extract (dikiSelect ⟨[], [⟨["kot"], [], ""⟩]⟩) = ["kot"] :=
  ⟨rfl, rfl⟩

/-- Claim C7 as amended: a marker-less first response triggers exactly one
retry, issued after a sleep; if the retry returns content — with or without
markers — extraction proceeds on it (fallback selectors included); if the
retry fails with a transport error the result is empty. -/
theorem diki_marker_retry_behavior
    (fetch2 : Res String) (parse : String → Option DikiDoc) (now : Nat)
    (c : CacheMap) (term0 : String) (text1 : String)
    (hmiss : (cache_get_key c now (dikiKey term0)).1 = PyVal.none)
    (hterm : pyStrip term0 ≠ "")
    (hnomark : hasMarkers text1 = false) :
    (diki_lookup (Res.ok text1) fetch2 parse now c term0).2.2
      = [Ev.remote "diki", Ev.sleep, Ev.remote "diki"] ∧
    remoteCount ((diki_lookup (Res.ok text1) fetch2 parse now c term0).2.2)
      = 2 ∧
    (∀ text2 d, fetch2 = Res.ok text2 → parse text2 = some d →
      (diki_lookup (Res.ok text1) fetch2 parse now c term0).1
        = diki_extract (dikiSelect d)) ∧
    (fetch2 = Res.exc →
      (diki_lookup (Res.ok text1) fetch2 parse now c term0).1 = []) := by
  cases fetch2 with
  | exc =>
    have hval : diki_lookup (Res.ok text1) Res.exc parse now c term0
        = ([], cache_set_key (cache_get_key c now (dikiKey term0)).2 now
            (dikiKey term0) (PyVal.strList []),
          [Ev.remote "diki", Ev.sleep, Ev.remote "diki"]) := by
      simp only [diki_lookup, hmiss, hnomark]
      simp [hterm]
    refine ⟨by rw [hval], by rw [hval]; rfl, ?_, fun _ => by rw [hval]⟩
    intro text2 d h _
    cases h
  | ok text2 =>
    have hval : diki_lookup (Res.ok text1) (Res.ok text2) parse now c term0
        = dikiFinish parse (cache_get_key c now (dikiKey term0)).2 now
            (dikiKey term0) text2
            [Ev.remote "diki", Ev.sleep, Ev.remote "diki"] := by
      simp only [diki_lookup, hmiss, hnomark]
      simp [hterm]
    refine ⟨?_, ?_, ?_, fun h => by cases h⟩
    · rw [hval, dikiFinish]
      cases parse text2 <;> simp
    · rw [hval, dikiFinish]
      cases parse text2 <;> rfl
    · intro t2 d ht hp
      cases ht
      rw [hval, dikiFinish, hp]

/-- Claim C7 witness: a marker-less page followed by a successful (still
marker-less) retry yields the three-event trace and the extraction of the
retry's parsed document. -/
theorem diki_marker_retry_witness :
    (cache_get_key [] 0 (dikiKey "cat")).1 = PyVal.none ∧
    pyStrip "cat" ≠ "" ∧
    hasMarkers "plain page" = false ∧
    (diki_lookup (Res.ok "plain page") (Res.ok "retry page")
        (fun _ => some ⟨[⟨["pies"], [], ""⟩], []⟩) 0 [] "cat").2.2
      = [Ev.remote "diki", Ev.sleep, Ev.remote "diki"] ∧
    (diki_lookup (Res.ok "plain page") (Res.ok "retry page")
        (fun _ => some ⟨[⟨["pies"], [], ""⟩], []⟩) 0 [] "cat").1
      = diki_extract (dikiSelect ⟨[⟨["pies"], [], ""⟩], []⟩) := by
  have h := diki_marker_retry_behavior (Res.ok "retry page")
    (fun _ => some ⟨[⟨["pies"], [], ""⟩], []⟩) 0 [] "cat" "plain page"
    rfl (by decide) rfl
  exact ⟨rfl, by decide, rfl, h.1, h.2.2.1 "retry page" _ rfl rfl⟩

/-- Claim C8: an exception in the direct inter-language-link step does not
abort the lookup — the outcome is the same as if that step had merely found no
links, so the linked-data step is still attempted; if the linked-data step
also fails (at either of its two calls) the result is absent; and a `None` or
empty input title yields absent immediately with no remote call. -/
theorem e2p_step_failures_not_fatal
    (langlinks langlinks2 : String → Res (List (String × String)))
    (pageprops : String → Res String)
    (wikidata : String → Res (String × String))
    (now : Nat) (c : CacheMap) (t : String)
    (hm : (cache_get_key c now (e2pKey (some t))).1 = PyVal.none)
    (hmn : (cache_get_key c now (e2pKey Option.none)).1 = PyVal.none)
    (hme : (cache_get_key c now (e2pKey (some ""))).1 = PyVal.none)
    (ht : t ≠ "")
    (hexc : langlinks t = Res.exc)
    (hl2 : langlinks2 t = Res.ok []) :
    english_to_polish_wikipedia langlinks pageprops wikidata now c (some t)
      = english_to_polish_wikipedia langlinks2 pageprops wikidata now c
        (some t) ∧
    (pageprops t = Res.exc →
      (english_to_polish_wikipedia langlinks pageprops wikidata now c
        (some t)).1 = Option.none) ∧
    (∀ qid, pageprops t = Res.ok qid → wikidata qid = Res.exc →
      (english_to_polish_wikipedia langlinks pageprops wikidata now c
        (some t)).1 = Option.none) ∧
    ((english_to_polish_wikipedia langlinks pageprops wikidata now c
        Option.none).1 = Option.none ∧
      (english_to_polish_wikipedia langlinks pageprops wikidata now c
        Option.none).2.2 = []) ∧
    ((english_to_polish_wikipedia langlinks pageprops wikidata now c
        (some "")).1 = Option.none ∧
      (english_to_polish_wikipedia langlinks pageprops wikidata now c
        (some "")).2.2 = []) := by
  have htt : ¬ pyTruthyOptStr (some t) = false := by
    simp [pyTruthyOptStr, ht]
  refine ⟨?_, ?_, ?_, ?_, ?_⟩
  · simp [english_to_polish_wikipedia, hm, hexc, hl2, htt]
  · intro hpp
    simp [english_to_polish_wikipedia, hm, hexc, hpp, htt]
  · intro qid hpp hwd
    simp [english_to_polish_wikipedia, hm, hexc, hpp, hwd, htt]
  · constructor <;> simp [english_to_polish_wikipedia, hmn, pyTruthyOptStr]
  · constructor <;> simp [english_to_polish_wikipedia, hme, pyTruthyOptStr]

/-- Claim C8 witness: with a step-1 exception and a failing linked-data step,
the lookup equals the empty-links run and resolves to absent; `None` and `""`
inputs are absent with an empty event trace. -/
theorem e2p_step_failures_witness :
    english_to_polish_wikipedia (fun _ => Res.exc) (fun _ => Res.exc)
        (fun _ => Res.exc) 0 [] (some "Cat")
      = english_to_polish_wikipedia
        (fun _ => Res.ok ([] : List (String × String))) (fun _ => Res.exc)
        (fun _ => Res.exc) 0 [] (some "Cat") ∧
    (english_to_polish_wikipedia (fun _ => Res.exc) (fun _ => Res.exc)
        (fun _ => Res.exc) 0 [] (some "Cat")).1 = Option.none ∧
    (english_to_polish_wikipedia (fun _ => Res.exc) (fun _ => Res.exc)
        (fun _ => Res.exc) 0 [] Option.none).1 = Option.none ∧
    (english_to_polish_wikipedia (fun _ => Res.exc) (fun _ => Res.exc)
        (fun _ => Res.exc) 0 [] Option.none).2.2 = [] ∧
    (english_to_polish_wikipedia (fun _ => Res.exc) (fun _ => Res.exc)
        (fun _ => Res.exc) 0 [] (some "")).1 = Option.none ∧
    (english_to_polish_wikipedia (fun _ => Res.exc) (fun _ => Res.exc)
        (fun _ => Res.exc) 0 [] (some "")).2.2 = [] := by
  have h := e2p_step_failures_not_fatal (fun _ => Res.exc)
    (fun _ => Res.ok ([] : List (String × String))) (fun _ => Res.exc)
    (fun _ => Res.exc) 0 [] "Cat" rfl rfl rfl (by decide) rfl rfl
  exact ⟨h.1, h.2.1 rfl, h.2.2.2.1.1, h.2.2.2.1.2, h.2.2.2.2.1,
    h.2.2.2.2.2⟩

/-- Claim C9 counterexample: the locator performs no emptiness validation on
the collaborator's strings — a langlinks response carrying empty strings
produces a present CrossReference whose target title and URL are empty,
refuting the claim as universally stated over collaborator responses. -/
theorem xref_empty_fields_possible :
    ¬ (∀ r : Xref,
        (english_to_polish_wikipedia (fun _ => Res.ok [("", "")])
          (fun _ => Res.exc) (fun _ => Res.exc) 0 [] (some "T")).1 = some r →
        r.plTitle ≠ "" ∧ r.plUrl ≠ "") := by
  intro h
  exact (h ⟨"T", "", ""⟩ rfl).1 rfl

/-- Claim C9 as amended: a present CrossReference carries exactly the strings
of the collaborator response that produced it, so its target title and URL
are non-empty whenever every collaborator response's strings are non-empty. -/
theorem xref_nonempty_given_nonempty_responses
    (langlinks : String → Res (List (String × String)))
    (pageprops : String → Res String)
    (wikidata : String → Res (String × String))
    (now : Nat) (c : CacheMap) (t : String) (r : Xref)
    (hm : (cache_get_key c now (e2pKey (some t))).1 = PyVal.none)
    (hll : ∀ a b rest, langlinks t = Res.ok ((a, b) :: rest) →
      a ≠ "" ∧ b ≠ "")
    (hwd : ∀ q a b, wikidata q = Res.ok (a, b) → a ≠ "" ∧ b ≠ "")
    (hr : (english_to_polish_wikipedia langlinks pageprops wikidata now c
      (some t)).1 = some r) :
    r.plTitle ≠ "" ∧ r.plUrl ≠ "" := by
  by_cases ht : pyTruthyOptStr (some t) = false
  · have hv : (english_to_polish_wikipedia langlinks pageprops wikidata now c
        (some t)).1 = Option.none := by
      simp [english_to_polish_wikipedia, hm, ht]
    rw [hv] at hr
    cases hr
  · cases hls : langlinks t with
    | ok ll =>
      cases ll with
      | cons p rest =>
        obtain ⟨a, b⟩ := p
        have hv : (english_to_polish_wikipedia langlinks pageprops wikidata
            now c (some t)).1 = some ⟨t, a, b⟩ := by
          simp [english_to_polish_wikipedia, hm, hls, ht]
        rw [hv] at hr
        have hfields := hll a b rest hls
        obtain rfl : r = ⟨t, a, b⟩ := by
          injection hr with h'
          exact h'.symm
        exact hfields
      | nil =>
        cases hpp : pageprops t with
        | exc =>
          have hv : (english_to_polish_wikipedia langlinks pageprops wikidata
              now c (some t)).1 = Option.none := by
            simp [english_to_polish_wikipedia, hm, hls, hpp, ht]
          rw [hv] at hr
          cases hr
        | ok qid =>
          cases hwq : wikidata qid with
          | exc =>
            have hv : (english_to_polish_wikipedia langlinks pageprops
                wikidata now c (some t)).1 = Option.none := by
              simp [english_to_polish_wikipedia, hm, hls, hpp, hwq, ht]
            rw [hv] at hr
            cases hr
          | ok pr =>
            obtain ⟨pa, pb⟩ := pr
            have hv : (english_to_polish_wikipedia langlinks pageprops
                wikidata now c (some t)).1 = some ⟨t, pa, pb⟩ := by
              simp [english_to_polish_wikipedia, hm, hls, hpp, hwq, ht]
            rw [hv] at hr
            have hfields := hwd qid pa pb hwq
            obtain rfl : r = ⟨t, pa, pb⟩ := by
              injection hr with h'
              exact h'.symm
            exact hfields
    | exc =>
      cases hpp : pageprops t with
      | exc =>
        have hv : (english_to_polish_wikipedia langlinks pageprops wikidata
            now c (some t)).1 = Option.none := by
          simp [english_to_polish_wikipedia, hm, hls, hpp, ht]
        rw [hv] at hr
        cases hr
      | ok qid =>
        cases hwq : wikidata qid with
        | exc =>
          have hv : (english_to_polish_wikipedia langlinks pageprops wikidata
              now c (some t)).1 = Option.none := by
            simp [english_to_polish_wikipedia, hm, hls, hpp, hwq, ht]
          rw [hv] at hr
          cases hr
        | ok pr =>
          obtain ⟨pa, pb⟩ := pr
          have hv : (english_to_polish_wikipedia langlinks pageprops wikidata
              now c (some t)).1 = some ⟨t, pa, pb⟩ := by
            simp [english_to_polish_wikipedia, hm, hls, hpp, hwq, ht]
          rw [hv] at hr
          have hfields := hwd qid pa pb hwq
          obtain rfl : r = ⟨t, pa, pb⟩ := by
            injection hr with h'
            exact h'.symm
          exact hfields

/-- Claim C9 witness: a non-empty langlinks response gives a CrossReference
with non-empty target fields. -/
theorem xref_nonempty_witness :
    (⟨"T", "Kot", "https://pl.wikipedia.org/wiki/Kot"⟩ : Xref).plTitle ≠ "" ∧
    (⟨"T", "Kot", "https://pl.wikipedia.org/wiki/Kot"⟩ : Xref).plUrl ≠ "" := by
  refine xref_nonempty_given_nonempty_responses
    (fun _ => Res.ok [("Kot", "https://pl.wikipedia.org/wiki/Kot")])
    (fun _ => Res.exc) (fun _ => Res.exc) 0 [] "T"
    ⟨"T", "Kot", "https://pl.wikipedia.org/wiki/Kot"⟩ rfl ?_ ?_ rfl
  · intro a b rest h
    simp only [Res.ok.injEq, List.cons.injEq, Prod.mk.injEq] at h
    obtain ⟨⟨rfl, rfl⟩, -⟩ := h
    exact ⟨by decide, by decide⟩
  · intro qv a b h
    exact Res.noConfusion h

/-- Claim C10: on a cache miss, for a URL-shaped query whose fetched page
yields no aligned pairs, the fallback pairs every extracted Polish term with
the recovered query term — the first value of the URL's `term` query-string
parameter when present, otherwise the (stripped) URL string itself — and then
applies the usual truncation. -/
theorem proz_pairs_url_fallback
    (fetch : Bool → String → Option ProzDoc) (now : Nat) (c : CacheMap)
    (q : String) (maxPairs : Option Int) (doc : ProzDoc)
    (hmiss : (cache_get_key c now (prozPairsKey q maxPairs)).1 = PyVal.none)
    (hurl : looksLikeUrl (pyStrip q) = true)
    (hfetch : fetch true (pyStrip q) = some doc)
    (hnopairs : extract_en_pl_pairs doc = []) :
    (∀ n : Int, maxPairs = some n → 0 < n →
      (proz_lookup_pairs fetch now c q maxPairs).1
        = ((extract_polish_terms doc).map
            (fun pl => (queryTermOf (pyStrip q), pl))).take n.toNat) ∧
    (∀ n : Int, maxPairs = some n → ¬ 0 < n →
      (proz_lookup_pairs fetch now c q maxPairs).1
        = (extract_polish_terms doc).map
            (fun pl => (queryTermOf (pyStrip q), pl))) ∧
    (maxPairs = Option.none →
      (proz_lookup_pairs fetch now c q maxPairs).1
        = (extract_polish_terms doc).map
            (fun pl => (queryTermOf (pyStrip q), pl))) ∧
    (∀ v, (termParamValues (pyStrip q)).head? = some v →
      queryTermOf (pyStrip q) = v) ∧
    ((termParamValues (pyStrip q)).head? = Option.none →
      queryTermOf (pyStrip q) = pyStrip q) := by
  refine ⟨?_, ?_, ?_, ?_, ?_⟩
  · intro n hn hpos
    subst hn
    simp only [proz_lookup_pairs, hmiss, hurl, hfetch, hnopairs]
    rw [if_pos (show n ≠ 0 ∧ 0 < n from ⟨by omega, hpos⟩)]
    simp
  · intro n hn hneg
    subst hn
    simp only [proz_lookup_pairs, hmiss, hurl, hfetch, hnopairs]
    rw [if_neg (show ¬(n ≠ 0 ∧ 0 < n) from fun hc => hneg hc.2)]
    simp
  · intro hn
    subst hn
    simp only [proz_lookup_pairs, hmiss, hurl, hfetch, hnopairs]
    simp
  · intro v hv
    simp [queryTermOf, hv]
  · intro hv
    simp [queryTermOf, hv]

/-- Claim C10 witness: with one extracted Polish term and no aligned pairs,
a ProZ URL with `term=Chaperone` pairs `"Chaperone"` with it; the same URL
without a `term` parameter pairs the whole URL string with it. -/
theorem proz_pairs_url_fallback_witness :
    (proz_lookup_pairs (fun _ _ => some ⟨["kot"], [], [], [], ⟨[], []⟩⟩)
        0 [] "https://www.proz.com/search/?term=Chaperone&es=1" (some 25)).1
      = [("Chaperone", "kot")] ∧
    (proz_lookup_pairs (fun _ _ => some ⟨["kot"], [], [], [], ⟨[], []⟩⟩)
        0 [] "https://www.proz.com/search/?es=1" (some 25)).1
      = [("https://www.proz.com/search/?es=1", "kot")] := by
  have h1 := proz_pairs_url_fallback
    (fun _ _ => some ⟨["kot"], [], [], [], ⟨[], []⟩⟩) 0 []
    "https://www.proz.com/search/?term=Chaperone&es=1" (some 25)
    ⟨["kot"], [], [], [], ⟨[], []⟩⟩ rfl rfl rfl rfl
  have h2 := proz_pairs_url_fallback
    (fun _ _ => some ⟨["kot"], [], [], [], ⟨[], []⟩⟩) 0 []
    "https://www.proz.com/search/?es=1" (some 25)
    ⟨["kot"], [], [], [], ⟨[], []⟩⟩ rfl rfl rfl rfl
  constructor
  · rw [h1.1 25 rfl (by decide)]; rfl
  · rw [h2.1 25 rfl (by decide)]; rfl

end WikiDiki
